import Mathlib

/-!
Verification of the multi-source ad ETL engine (polars-ad-etl).

The development shallowly embeds the DataFrame operations used by
`src/multi_source_ad_etl/multi_source_ad_etl.py`, `src/plETL/apslETL.py`,
`src/multi_source_ad_etl/data_clean_lib.py` and `src/utils/utils.py`:
a DataFrame is a list of named, dtype-tagged columns of cell values
(polars is column-major; every row-level polars operation used by the
repository — filtering, vertical concatenation — is computed per column
from a shared mask, and the embedding mirrors that).
-/

namespace PolarsAdEtl

/-- A cell value.  The repository's pipelines only materialize strings,
64-bit integers, calendar dates and nulls (its canonical schemas declare
`pl.String`, `pl.Int64`, `pl.Date`).  A date is a civil triple y-m-d. -/
inductive Value
  | null
  | str (s : String)
  | int (n : Int)
  | date (y m d : Nat)
deriving DecidableEq

/-- A polars dtype, restricted to the dtypes the repository's schemas use.
`nullType` is the dtype of `pl.lit(None)` (polars `Null`). -/
inductive DType
  | string
  | int64
  | date
  | nullType
deriving DecidableEq

/-- One DataFrame column: name, dtype and the cell values. -/
structure Col where
  name : String
  dtype : DType
  values : List Value
deriving DecidableEq

/-- A DataFrame: an ordered list of columns. -/
structure DF where
  cols : List Col
deriving DecidableEq

/-- The `df.columns` list of polars. -/
def colNames (df : DF) : List String :=
  df.cols.map Col.name

/-- The `df.schema` of polars: names with dtypes, in column order. -/
def schemaOf (df : DF) : List (String × DType) :=
  df.cols.map (fun c => (c.name, c.dtype))

/-- The `df.height` of polars: the number of rows.  polars stores it
once; here it is
read off the first column (well-formed frames have equal column lengths). -/
def height (df : DF) : Nat :=
  match df.cols with
  | [] => 0
  | c :: _ => c.values.length

/-- The `df.width` of polars: the number of columns. -/
def width (df : DF) : Nat :=
  df.cols.length

/-- Well-formedness: every column has exactly `height df` values. -/
def wf (df : DF) : Prop :=
  ∀ c ∈ df.cols, c.values.length = height df

instance (df : DF) : Decidable (wf df) := by
  unfold wf
  infer_instance

/-- Row `i` of a frame, as the list of the columns' `i`-th cells
(defaulting to null past the end; well-formed frames never hit the default
for `i < height df`). -/
def rowAt (df : DF) (i : Nat) : List Value :=
  df.cols.map (fun c => c.values.getD i Value.null)

/-- The rows of a frame, in order. -/
def rowsOf (df : DF) : List (List Value) :=
  (List.range (height df)).map (rowAt df)

/-- Column resolution of `pl.col(name)`: by name, first occurrence (polars
forbids duplicate names, so the first occurrence is the only one). -/
def lookupCol (df : DF) (n : String) : Option Col :=
  df.cols.find? (fun c => c.name == n)

/-- The runtime errors surfaced by the embedded operations, mirroring the
exception classes the Python code and polars raise. -/
inductive ETLError
  | valueError
  | columnNotFound
  | castFailed
  | shapeError
  | invalidOperation
  | indexError
  | typeError
deriving DecidableEq

instance instDecEqExcept {ε α : Type} [DecidableEq ε] [DecidableEq α] :
    DecidableEq (Except ε α) := fun a b =>
  match a, b with
  | .error e, .error f =>
      if h : e = f then isTrue (by subst h; rfl)
      else isFalse (fun hh => h (by cases hh; rfl))
  | .error _, .ok _ => isFalse (fun hh => Except.noConfusion hh)
  | .ok _, .error _ => isFalse (fun hh => Except.noConfusion hh)
  | .ok x, .ok y =>
      if h : x = y then isTrue (by subst h; rfl)
      else isFalse (fun hh => h (by cases hh; rfl))

/-! ## Source classifier
`MultiSourceAdETL._detect_source` (multi_source_ad_etl.py lines 20–52) and
`apslETL._detect_source` (apslETL.py lines 24–38). -/

/-- The default `source_criteria` dict of
`MultiSourceAdETL._detect_source` (lines 25–29).  A required column set is
embedded as a list (Python sets have no duplicates). -/
def defaultCriteria : List (String × List String) :=
  [("Meta", ["Campaign name", "Day"]),
   ("TikTok", ["By Day", "Cost"]),
   ("X (Twitter)", ["Time period", "Spend"])]

/-- The `col_to_keys` ambiguity scan of `_detect_source` (lines 31–43):
true iff some column name belongs to the required set of at least two
sources, in which case the Python code raises `ValueError`. -/
def hasSharedColumn (criteria : List (String × List String)) : Bool :=
  criteria.any (fun p => p.2.any (fun col =>
    2 ≤ (criteria.filter (fun q => col ∈ q.2)).length))

/-- The matching loop of `_detect_source` (lines 47–49): first source in
configuration order whose required set is a subset of the frame's
columns. -/
def firstMatch (criteria : List (String × List String)) (dfCols : List String) :
    Option String :=
  match criteria with
  | [] => none
  | (src, req) :: rest =>
      if req.all (fun c => dfCols.contains c) then some src
      else firstMatch rest dfCols

/-- Embedding of `MultiSourceAdETL._detect_source` (lines 20–52).  With explicit
criteria the ambiguity scan runs first and raises `ValueError`
(`.error .valueError`); with the default criteria no scan happens.  A
frame matching no source is given the literal label "Unknown" (line 52)
after a log warning — the function does not raise in that case. -/
def _detect_source (df : DF)
    (source_criteria : Option (List (String × List String))) :
    Except ETLError String :=
  match source_criteria with
  | none =>
      match firstMatch defaultCriteria (colNames df) with
      | some src => .ok src
      | none => .ok "Unknown"
  | some criteria =>
      if hasSharedColumn criteria then .error .valueError
      else
        match firstMatch criteria (colNames df) with
        | some src => .ok src
        | none => .ok "Unknown"

/-! ## Orchestrator state
`MultiSourceAdETL.__init__` (lines 7–9), `read_tabular_files` (11–18) and
`assign_source` (54–106).  File parsing is an external collaborator; the
reader's output (the parsed frames of the directory) is passed to
`read_tabular_files` explicitly. -/

structure MultiSourceAdETL where
  raw_dir : String
  dfs : List DF
deriving DecidableEq

/-- Embedding of `MultiSourceAdETL.__init__` (lines 7–9): stores the directory and an
empty frame list.  It performs no validation of any kind. -/
def MultiSourceAdETL.init (raw_dir : String) : MultiSourceAdETL :=
  { raw_dir := raw_dir, dfs := [] }

/-- Embedding of `read_tabular_files` (lines 11–18): appends each parsed tabular file
of the directory to `self.dfs`.  The CSV/XLSX parsing itself is the
external reader; its results are the `parsed` argument. -/
def MultiSourceAdETL.read_tabular_files (etl : MultiSourceAdETL)
    (parsed : List DF) : MultiSourceAdETL :=
  { etl with dfs := etl.dfs ++ parsed }

/-- The body of `assign_source`'s loop (lines 99–101): stamp the resolved
source as a leading "Source" column (an existing "Source" column is
replaced by the `alias`, and `select` moves it to the front). -/
def addSourceColumn (df : DF) (src : String) : DF :=
  ⟨⟨"Source", .string, List.replicate (height df) (.str src)⟩ ::
    df.cols.filter (fun c => c.name ≠ "Source")⟩

/-- Embedding of `assign_source` (lines 54–106): classify every frame and stamp the
label; the first `_detect_source` failure aborts the call. -/
def MultiSourceAdETL.assign_source (etl : MultiSourceAdETL)
    (source_criteria : Option (List (String × List String))) :
    Except ETLError MultiSourceAdETL := do
  let dfs ← etl.dfs.mapM (fun df => do
    let src ← _detect_source df source_criteria
    pure (addSourceColumn df src))
  pure { etl with dfs := dfs }

/-! ## Calendar dates
polars stores a `pl.Date` as days since 1970-01-01; the embedding carries
the civil triple and converts with the standard era-based algorithm where
an integer cast crosses the representations. -/

/-- Days since 1970-01-01 of a civil date (proleptic Gregorian). -/
def civilToDays (y m d : Nat) : Int :=
  let y' : Int := if m ≤ 2 then (y : Int) - 1 else (y : Int)
  let era : Int := Int.fdiv y' 400
  let yoe : Nat := (y' - era * 400).toNat
  let mp : Nat := if 2 < m then m - 3 else m + 9
  let doy : Nat := (153 * mp + 2) / 5 + d - 1
  let doe : Nat := yoe * 365 + yoe / 4 - yoe / 100 + doy
  era * 146097 + (doe : Int) - 719468

/-- Civil date of a days-since-1970-01-01 count (years before 0 clamp to
year 0; the pipelines only carry modern dates). -/
def daysToCivil (z0 : Int) : Nat × Nat × Nat :=
  let z : Int := z0 + 719468
  let era : Int := Int.fdiv z 146097
  let doe : Nat := (z - era * 146097).toNat
  let yoe : Nat := (doe - doe / 1460 + doe / 36524 - doe / 146096) / 365
  let doy : Nat := doe - (365 * yoe + yoe / 4 - yoe / 100)
  let mp : Nat := (5 * doy + 2) / 153
  let d : Nat := doy - (153 * mp + 2) / 5 + 1
  let m : Nat := if mp < 10 then mp + 3 else mp - 9
  let y : Int := era * 400 + (yoe : Int) + (if m ≤ 2 then 1 else 0)
  (y.toNat, m, d)

/-- Split a character list on a separator (kernel-reducible stand-in for
the `%Y-%m-%d` field split chrono performs for polars' string→date cast). -/
def splitOnChar (sep : Char) : List Char → List (List Char)
  | [] => [[]]
  | c :: rest =>
      let r := splitOnChar sep rest
      if c = sep then [] :: r
      else
        match r with
        | g :: gs => (c :: g) :: gs
        | [] => [[c]]

/-- Accumulator loop of `charsToNat`. -/
def charsToNatAux : List Char → Nat → Option Nat
  | [], acc => some acc
  | c :: rest, acc =>
      if '0' ≤ c ∧ c ≤ '9' then charsToNatAux rest (acc * 10 + (c.toNat - 48))
      else none

/-- Decimal digits to a number; `none` on the empty list or a non-digit. -/
def charsToNat : List Char → Option Nat
  | [] => none
  | cs => charsToNatAux cs 0

/-- polars' strict `String → Int64` cast: an optional sign followed by
decimal digits. -/
def parseInt (s : String) : Option Int :=
  match s.data with
  | '-' :: rest => (charsToNat rest).map (fun n => -(n : Int))
  | cs => (charsToNat cs).map (fun n => (n : Int))

/-- polars' strict `String → Date` cast: an ISO `YYYY-MM-DD` date.
Field-range validation approximates chrono's full calendar check. -/
def parseIsoDate (s : String) : Option (Nat × Nat × Nat) :=
  match splitOnChar '-' s.data with
  | [ys, ms, ds] =>
      match charsToNat ys, charsToNat ms, charsToNat ds with
      | some y, some m, some d =>
          if 1 ≤ m ∧ m ≤ 12 ∧ 1 ≤ d ∧ d ≤ 31 then some (y, m, d) else none
      | _, _, _ => none
  | _ => none

/-- Left-pad a numeral with zeros (Python's `%04d`/`%02d`). -/
def padZero (w n : Nat) : String :=
  let s := toString n
  String.mk (List.replicate (w - s.length) '0') ++ s

/-- ISO rendering, as Python renders `str(datetime.date(y, m, d))`. -/
def isoString (y m d : Nat) : String :=
  padZero 4 y ++ "-" ++ padZero 2 m ++ "-" ++ padZero 2 d

/-! ## Schema coercion
The fill / select / cast chain of `MultiSourceAdETL.standardize`
(multi_source_ad_etl.py lines 170–180; identical in apslETL.py
lines 118–128). -/

/-- polars' strict single-value cast for the dtypes in play.  `none` is a
`InvalidOperationError`/strict-cast failure.  Nulls cast to null in every
dtype; a value casts to `nullType` only if it is already null. -/
def castValue : Value → DType → Option Value
  | .null, _ => some .null
  | .str s, .string => some (.str s)
  | .str s, .int64 => (parseInt s).map .int
  | .str s, .date => (parseIsoDate s).map (fun t => .date t.1 t.2.1 t.2.2)
  | .str _, .nullType => none
  | .int n, .string => some (.str (toString n))
  | .int n, .int64 => some (.int n)
  | .int n, .date =>
      let t := daysToCivil n
      some (.date t.1 t.2.1 t.2.2)
  | .int _, .nullType => none
  | .date y m d, .string => some (.str (isoString y m d))
  | .date y m d, .date => some (.date y m d)
  | .date y m d, .int64 => some (.int (civilToDays y m d))
  | .date _ _ _, .nullType => none

/-- Cast one column to a dtype: every value must cast (strict), the name
is kept, the column dtype becomes the target dtype. -/
def castCol (c : Col) (dt : DType) : Except ETLError Col :=
  match c.values.mapM (fun v => castValue v dt) with
  | some vs => .ok ⟨c.name, dt, vs⟩
  | none => .error .castFailed

/-- The `with_columns` fill (lines 171–177): a `pl.lit(None)` column (of
polars dtype `Null`) is appended for every schema name missing from the
frame, in schema order. -/
def fillMissing (df : DF) (names : List String) : DF :=
  ⟨df.cols ++
    (names.filter (fun n => ¬ df.cols.any (fun c => c.name == n))).map
      (fun n => ⟨n, .nullType, List.replicate (height df) .null⟩)⟩

/-- The `select(standard_schema.keys())` step (line 178): pick exactly the named
columns, in the given order; a missing name is a `ColumnNotFoundError`.
This is also where columns outside the schema are dropped. -/
def selectCols (df : DF) (names : List String) : Except ETLError DF :=
  match names.mapM (lookupCol df) with
  | some cs => .ok ⟨cs⟩
  | none => .error .columnNotFound

/-- The `cast(standard_schema)` step (line 179): every column whose name is a key
of the schema dict is cast to the declared dtype; others pass through. -/
def castDF (df : DF) (schema : List (String × DType)) : Except ETLError DF := do
  let cs ← df.cols.mapM (fun c =>
    match schema.find? (fun p => p.1 == c.name) with
    | some p => castCol c p.2
    | none => .ok c)
  pure ⟨cs⟩

/-- The coercion step of `standardize` (lines 170–180): fill missing
canonical columns with nulls, select the canonical columns in canonical
order, cast each to its declared dtype. -/
def coerceToSchema (df : DF) (schema : List (String × DType)) :
    Except ETLError DF := do
  let filled := fillMissing df (schema.map Prod.fst)
  let selected ← selectCols filled (schema.map Prod.fst)
  castDF selected schema

/-! ## Cleaning rule library
`data_clean_lib.py` (the spec's Cleaning Rule Library). -/

/-- Embedding of `clean_x_avg_frequency` (data_clean_lib.py lines 4–12).  Looking up
`df.schema["Average frequency"]` on a frame without the column is a
`KeyError`, modelled as an error.  When the column's dtype is `String`,
`pl.when(col == "-").then(pl.lit(0)).otherwise(col)` replaces the bare
dash by zero; the supertype of `Int32` (the dtype of `pl.lit(0)`) and
`String` is `String`, so the zero materializes as the string "0" and the
column dtype stays `String`.  A null cell compares as null and falls to
the `otherwise` branch, staying null.  Any other dtype leaves the frame
untouched. -/
def clean_x_avg_frequency (df : DF) : Except ETLError DF :=
  match lookupCol df "Average frequency" with
  | none => .error .columnNotFound
  | some c =>
      if c.dtype = .string then
        .ok ⟨df.cols.map (fun col =>
          if col.name == "Average frequency" then
            { col with values := col.values.map (fun v =>
                if v == .str "-" then .str "0" else v) }
          else col)⟩
      else .ok df

/-- Embedding of `apslETL.clean_x_avg_frequency` (apslETL.py lines
55–69), the near-duplicate of the library cleaner.  It first reads
`df["Source"][0]` (a missing column is a `ColumnNotFoundError`, an empty
frame an out-of-bounds `IndexError`) and only acts on "X (Twitter)"
frames with a `String`-typed "Average frequency" column.  Unlike the
library's `when/then/otherwise`, it uses `replace_strict("-", "0")` with
no default: nulls pass through as null, a dash becomes "0", and any
other non-null value raises `InvalidOperationError`. -/
def apslETL_clean_x_avg_frequency (df : DF) : Except ETLError DF :=
  match lookupCol df "Source" with
  | none => .error .columnNotFound
  | some srcCol =>
      match srcCol.values[0]? with
      | none => .error .indexError
      | some srcVal =>
          if srcVal == .str "X (Twitter)" then
            match lookupCol df "Average frequency" with
            | none => .error .columnNotFound
            | some c =>
                if c.dtype = .string then
                  match c.values.mapM (fun v =>
                    match v with
                    | .null => some Value.null
                    | .str s => if s == "-" then some (Value.str "0") else none
                    | _ => none) with
                  | some vs => .ok ⟨df.cols.map (fun col =>
                      if col.name == "Average frequency" then
                        { col with values := vs }
                      else col)⟩
                  | none => .error .invalidOperation
                else .ok df
          else .ok df

/-- Does a string start with the fixed literal "Total"? (`str.starts_with`,
made kernel-reducible via the character lists). -/
def startsWithTotal (s : String) : Bool :=
  "Total".data.isPrefixOf s.data

/-- The keep-predicate of `DataFrame.remove`: a row is removed when the
predicate is true; rows where the predicate is false or null are kept
(a null cell gives a null predicate, and `remove` keeps null rows). -/
def keepRow (v : Value) : Bool :=
  match v with
  | .str s => ¬ startsWithTotal s
  | _ => true

/-- Filter a column's values by a shared boolean row mask (polars applies
the one mask to every column). -/
def maskFilter (mask : List Bool) (vs : List Value) : List Value :=
  (mask.zip vs).filterMap (fun p => if p.1 then some p.2 else none)

/-- Embedding of `remove_tiktok_total_row` (data_clean_lib.py lines 15–18; the body of
`clean_tiktok_remove_total`, multi_source_ad_etl.py lines 129–130).
`df.columns[1]` is an `IndexError` on a frame of width < 2;
`.str.starts_with` on a non-string column is an `InvalidOperationError`.
Otherwise rows whose second-column value starts with "Total" are dropped,
all columns filtered by the one mask. -/
def remove_tiktok_total_row (df : DF) : Except ETLError DF :=
  match df.cols[1]? with
  | none => .error .indexError
  | some c =>
      if c.dtype = .string then
        let mask := c.values.map keepRow
        .ok ⟨df.cols.map (fun col => { col with values := maskFilter mask col.values })⟩
      else .error .invalidOperation

/-! ## Merge engine
`MultiSourceAdETL.merge_and_collect` (lines 195–198): `pl.concat` with the
default `how="vertical"`, i.e. successive `vstack`s. -/

/-- One vertical stack: polars requires the two frames' schemas (names
with dtypes, in order) to be identical and appends each column's values;
a mismatch is a `ShapeError` (\"unable to vstack, column names don't
match\"), never a realignment. -/
def vstack (df1 df2 : DF) : Except ETLError DF :=
  if schemaOf df1 = schemaOf df2 then
    .ok ⟨(df1.cols.zip df2.cols).map (fun p =>
      ⟨p.1.name, p.1.dtype, p.1.values ++ p.2.values⟩)⟩
  else .error .shapeError

/-- Embedding of `pl.concat(dfs)` (vertical): an empty list is a `ValueError`
(\"cannot concat empty list\"); otherwise the frames are vstacked left to
right. -/
def pl_concat (dfs : List DF) : Except ETLError DF :=
  match dfs with
  | [] => .error .valueError
  | first :: rest => rest.foldlM vstack first

/-- Embedding of `merge_and_collect` (lines 195–198). -/
def MultiSourceAdETL.merge_and_collect (etl : MultiSourceAdETL) :
    Except ETLError DF :=
  pl_concat etl.dfs

/-! ## Filename helper
`make_date_filename` (utils.py lines 6–26). -/

/-- The date values of a column (polars `min`/`max` skip nulls). -/
def datesOf (vs : List Value) : List (Nat × Nat × Nat) :=
  vs.filterMap (fun v =>
    match v with
    | .date y m d => some (y, m, d)
    | _ => none)

/-- Calendar order on civil triples (the order of the underlying
day counts for calendar dates). -/
def dateLe (a b : Nat × Nat × Nat) : Bool :=
  decide (a.1 < b.1 ∨ (a.1 = b.1 ∧
    (a.2.1 < b.2.1 ∨ (a.2.1 = b.2.1 ∧ a.2.2 ≤ b.2.2))))

/-- The `df[col].min()` result: least date of the column, `none` when the column has
no (non-null) date. -/
def minDate (ds : List (Nat × Nat × Nat)) : Option (Nat × Nat × Nat) :=
  match ds with
  | [] => none
  | d :: rest => some (rest.foldl (fun acc x => if dateLe x acc then x else acc) d)

/-- The `df[col].max()` result: greatest date of the column. -/
def maxDate (ds : List (Nat × Nat × Nat)) : Option (Nat × Nat × Nat) :=
  match ds with
  | [] => none
  | d :: rest => some (rest.foldl (fun acc x => if dateLe acc x then x else acc) d)

/-- Python's f-string rendering of the `min()`/`max()` result: an all-null
column yields `None`, rendered "None". -/
def optDateStr (o : Option (Nat × Nat × Nat)) : String :=
  match o with
  | none => "None"
  | some t => isoString t.1 t.2.1 t.2.2

/-- Embedding of `make_date_filename` (utils.py lines 6–26): the first `pl.Date`-typed
column supplies the min and max; no date column raises `ValueError`. -/
def make_date_filename (pre : String) (df : DF) : Except ETLError String :=
  let date_cols := (df.cols.filter (fun c => c.dtype = .date)).map Col.name
  match date_cols with
  | [] => .error .valueError
  | first_date_col :: _ =>
      match lookupCol df first_date_col with
      | none => .error .columnNotFound
      | some col =>
          let ds := datesOf col.values
          .ok (pre ++ "_" ++ optDateStr (minDate ds) ++ "–" ++
               optDateStr (maxDate ds) ++ ".csv")

/-- Embedding of `MultiSourceAdETL.construct_file_name`
(multi_source_ad_etl.py lines 185–193), the near-duplicate of
`make_date_filename`.  Two divergences from the utils helper, both
faithful to the file's bytes: (1) the separator in the f-string is not
the en dash but the mojibake three-character sequence "â€“" (bytes
c3 a2 e2 82 ac e2 80 9c — an en dash that went through a UTF-8/cp1252
round trip), reproduced byte-for-byte in the literal below; (2) with no date
column, `first_date_col` is `None` and `pl.col(None)` raises a
`TypeError` — an incidental failure, not a deliberate `ValueError`. -/
def construct_file_name (identifier : String) (df : DF) :
    Except ETLError String :=
  let date_cols := (df.cols.filter (fun c => c.dtype = .date)).map Col.name
  match date_cols with
  | [] => .error .typeError
  | first_date_col :: _ =>
      match lookupCol df first_date_col with
      | none => .error .columnNotFound
      | some col =>
          let ds := datesOf col.values
          .ok (identifier ++ "_" ++ optDateStr (minDate ds) ++
               "â€“" ++ optDateStr (maxDate ds) ++ ".csv")

/-! ## A1 range helper
`df_to_a1` (utils.py lines 29–60; `df_to_a1_range` of apslETL.py is the
same computation restricted to full-range mode). -/

/-- The `while n > 0` loop of `_int_to_bijective_base_26`, written with a
structural fuel argument so that it evaluates in the kernel; each
iteration strictly decreases `n`, so `n` itself bounds the iteration
count.  `n ≤ 0` produces the empty string, as in the source. -/
def bij26Aux : Nat → Nat → String
  | 0, _ => ""
  | _ + 1, 0 => ""
  | fuel + 1, n + 1 =>
      bij26Aux fuel (n / 26) ++ String.singleton (Char.ofNat (65 + n % 26))

/-- Embedding of `_int_to_bijective_base_26` (utils.py lines 43–48): bijective
base-26 column letters (1 ↦ "A", 26 ↦ "Z", 27 ↦ "AA"). -/
def _int_to_bijective_base_26 (n : Nat) : String :=
  bij26Aux n n

inductive RangeMode
  | column_range
  | full_range
deriving DecidableEq

/-- Embedding of `df_to_a1` (utils.py lines 29–60).  The `x or 0` guard on an `int | None`
offset is `Option.getD 0` (Python's `or` maps both `None` and `0` to
`0`). A negative letter index produces "" exactly as the source's
`while n > 0` loop does, hence the `Int.toNat` clamp. -/
def df_to_a1 (df : DF) (range_mode : RangeMode)
    (vertical_offset horizontal_offset : Option Int) : String :=
  let v_offset : Int := vertical_offset.getD 0
  let h_offset : Int := horizontal_offset.getD 0
  let df_length : Int := (height df : Int) + 1
  let df_width : Int := (width df : Int)
  let a1_start := _int_to_bijective_base_26 (1 + h_offset).toNat
  let int_start : Int := 1 + v_offset
  let a1_end := _int_to_bijective_base_26 (df_width + h_offset).toNat
  let int_end : Int := df_length + v_offset
  let column_range := a1_start ++ ":" ++ a1_end
  let full_range := a1_start ++ toString int_start ++ ":" ++ a1_end ++ toString int_end
  match range_mode with
  | .column_range => column_range
  | .full_range => full_range

/-! ## Classifier theorems -/

lemma firstMatch_of_unique (criteria : List (String × List String))
    (cols : List String) (src : String) (req : List String)
    (hmem : (src, req) ∈ criteria)
    (hsub : req.all (fun c => cols.contains c) = true)
    (huniq : ∀ p ∈ criteria,
      p.2.all (fun c => cols.contains c) = true → p.1 = src) :
    firstMatch criteria cols = some src := by
  induction criteria with
  | nil => cases hmem
  | cons p rest ih =>
      obtain ⟨s0, r0⟩ := p
      by_cases h0 : r0.all (fun c => cols.contains c) = true
      · have hs0 : s0 = src := huniq (s0, r0) (List.mem_cons_self _ _) h0
        subst hs0
        simp only [firstMatch]
        rw [if_pos h0]
      · have hmem' : (src, req) ∈ rest := by
          rcases List.mem_cons.mp hmem with h | h
          · exfalso
            apply h0
            have h1 : r0 = req := congrArg Prod.snd h.symm
            rw [h1]
            exact hsub
          · exact h
        simp only [firstMatch, if_neg h0]
        exact ih hmem' (fun q hm hall => huniq q (List.mem_cons_of_mem _ hm) hall)

lemma firstMatch_of_no_match (criteria : List (String × List String))
    (cols : List String)
    (hnone : ∀ p ∈ criteria, ¬ p.2.all (fun c => cols.contains c) = true) :
    firstMatch criteria cols = none := by
  induction criteria with
  | nil => rfl
  | cons p rest ih =>
      obtain ⟨s0, r0⟩ := p
      simp only [firstMatch, if_neg (hnone (s0, r0) (List.mem_cons_self _ _))]
      exact ih (fun q hm => hnone q (List.mem_cons_of_mem _ hm))

/-- Claim C5: a RawTable whose column set is a superset of exactly one
configured source's required column-set (and of no other's) is classified
as that source.  `criteria` is the effective configuration — the supplied
dict, or the default table when none is supplied; the configuration is
assumed unambiguous, the classifier's stated input constraint. -/
theorem detect_source_unique_match (df : DF)
    (oc : Option (List (String × List String)))
    (criteria : List (String × List String)) (src : String) (req : List String)
    (hoc : oc.getD defaultCriteria = criteria)
    (hshared : hasSharedColumn criteria = false)
    (hmem : (src, req) ∈ criteria)
    (hsub : req.all (fun c => (colNames df).contains c) = true)
    (huniq : ∀ p ∈ criteria,
      p.2.all (fun c => (colNames df).contains c) = true → p.1 = src) :
    _detect_source df oc = .ok src := by
  have hfm : firstMatch criteria (colNames df) = some src :=
    firstMatch_of_unique criteria (colNames df) src req hmem hsub huniq
  cases oc with
  | none =>
      simp only [Option.getD_none] at hoc
      subst hoc
      simp [_detect_source, hfm]
  | some c =>
      simp only [Option.getD_some] at hoc
      subst hoc
      simp [_detect_source, hshared, hfm]

/-- Witness for C5: a frame with the Meta fingerprint plus extras is
classified "Meta" under the default criteria. -/
theorem detect_source_unique_match_witness :
    _detect_source
      ⟨[⟨"Campaign name", .string, []⟩, ⟨"Day", .string, []⟩,
        ⟨"Extra", .string, []⟩]⟩ none = .ok "Meta" :=
  detect_source_unique_match _ none defaultCriteria "Meta"
    ["Campaign name", "Day"] (by decide) (by decide) (by decide) (by decide)
    (by decide)

/-- Counterexample to claim C1: a table matching no configured source is
not an error — classification returns the literal fallback label
"Unknown" (after a log warning). -/
theorem detect_source_no_match_cx :
    _detect_source ⟨[⟨"Foo", .string, []⟩]⟩ none = .ok "Unknown" := by
  decide

/-- Claim C1 as amended: for every RawTable matching no source of the
effective (unambiguous) criteria, `_detect_source` returns the fallback
label "Unknown" instead of raising. -/
theorem detect_source_no_match_unknown (df : DF)
    (oc : Option (List (String × List String)))
    (criteria : List (String × List String))
    (hoc : oc.getD defaultCriteria = criteria)
    (hshared : hasSharedColumn criteria = false)
    (hnone : ∀ p ∈ criteria,
      ¬ p.2.all (fun c => (colNames df).contains c) = true) :
    _detect_source df oc = .ok "Unknown" := by
  have hfm : firstMatch criteria (colNames df) = none :=
    firstMatch_of_no_match criteria (colNames df) hnone
  cases oc with
  | none =>
      simp only [Option.getD_none] at hoc
      subst hoc
      simp [_detect_source, hfm]
  | some c =>
      simp only [Option.getD_some] at hoc
      subst hoc
      simp [_detect_source, hshared, hfm]

/-- Witness for the amended C1. -/
theorem detect_source_no_match_unknown_witness :
    _detect_source ⟨[⟨"Bar", .string, []⟩]⟩ (some [("Meta", ["Day"])]) =
      .ok "Unknown" :=
  detect_source_no_match_unknown _ _ [("Meta", ["Day"])] (by decide)
    (by decide) (by decide)

/-- Counterexample to claim C2: with criteria sharing the column "Shared"
between two sources, orchestrator construction succeeds (it validates
nothing), the loader runs and stores the file's table, and only the
classification stage raises the `ValueError` — so an ambiguous
configuration does reach the load and classify stages. -/
theorem config_validation_not_at_construction_cx :
    (MultiSourceAdETL.init "raw_dir").dfs = []
    ∧ ((MultiSourceAdETL.init "raw_dir").read_tabular_files
        [⟨[⟨"Whatever", .string, [.str "x"]⟩]⟩]).dfs =
        [⟨[⟨"Whatever", .string, [.str "x"]⟩]⟩]
    ∧ ((MultiSourceAdETL.init "raw_dir").read_tabular_files
        [⟨[⟨"Whatever", .string, [.str "x"]⟩]⟩]).assign_source
        (some [("A", ["Day", "Shared"]), ("B", ["Cost", "Shared"])]) =
        .error .valueError := by
  decide

/-- Claim C2 as amended: a configuration in which some column belongs to
more than one source's required set is rejected with a `ValueError`, but
only at the classification stage (`assign_source` → `_detect_source`),
only when the criteria are explicitly supplied, and only if at least one
table was loaded; construction performs no validation. -/
theorem ambiguous_criteria_fail_at_classify (etl : MultiSourceAdETL)
    (criteria : List (String × List String))
    (hsh : hasSharedColumn criteria = true) (hne : etl.dfs ≠ []) :
    etl.assign_source (some criteria) = .error .valueError := by
  obtain ⟨dir, dfs⟩ := etl
  cases dfs with
  | nil => exact absurd rfl hne
  | cons d ds =>
      have hd : _detect_source d (some criteria) = .error .valueError := by
        simp [_detect_source, hsh]
      unfold MultiSourceAdETL.assign_source
      rw [List.mapM_cons]
      simp only [hd]
      rfl

/-- Witness for the amended C2. -/
theorem ambiguous_criteria_fail_at_classify_witness :
    MultiSourceAdETL.assign_source ⟨"d", [⟨[⟨"W", .string, []⟩]⟩]⟩
      (some [("A", ["Day", "Shared"]), ("B", ["Cost", "Shared"])]) =
      .error .valueError :=
  ambiguous_criteria_fail_at_classify _ _ (by decide) (by decide)

/-! ## Merge negative-case theorem -/

lemma colNames_eq_schema_fst (df : DF) :
    colNames df = (schemaOf df).map Prod.fst := by
  simp [colNames, schemaOf, List.map_map, Function.comp]

/-- Claim C6: merging two frames whose columns carry the same names in
different left-to-right orders fails with the schema-mismatch error
(polars' "unable to vstack" `ShapeError`); no silent realignment. -/
theorem merge_mismatched_order_errors (df1 df2 : DF)
    (hperm : (colNames df1).Perm (colNames df2))
    (hne : colNames df1 ≠ colNames df2) :
    pl_concat [df1, df2] = .error .shapeError := by
  have hs : ¬ schemaOf df1 = schemaOf df2 := by
    intro h
    exact hne (by rw [colNames_eq_schema_fst, colNames_eq_schema_fst, h])
  have hv : vstack df1 df2 = .error .shapeError := by
    simp [vstack, hs]
  simp [pl_concat, List.foldlM, hv, Bind.bind, Except.bind]

/-- Witness for C6: same two column names, swapped order. -/
theorem merge_mismatched_order_errors_witness :
    pl_concat [⟨[⟨"a", .string, []⟩, ⟨"b", .string, []⟩]⟩,
               ⟨[⟨"b", .string, []⟩, ⟨"a", .string, []⟩]⟩] =
      .error .shapeError :=
  merge_mismatched_order_errors _ _ (by decide) (by decide)

/-! ## A1 range theorem -/

/-- Claim C10: for a frame of `r` rows and `w ≥ 1` columns and
non-negative offsets `v`, `h`, full-range mode yields
`L(1+h) ++ (1+v) ++ ":" ++ L(w+h) ++ (r+1+v)` (one extra row for the
header), column-range mode yields `L(1+h) ++ ":" ++ L(w+h)`, where `L` is
bijective base-26 (1 ↦ "A", 26 ↦ "Z", 27 ↦ "AA"). -/
theorem df_to_a1_spec (df : DF) (v h : Nat) (hw : 1 ≤ width df) :
    df_to_a1 df .full_range (some (v : Int)) (some (h : Int)) =
      _int_to_bijective_base_26 (1 + h) ++ toString ((1 : Int) + (v : Int)) ++
      ":" ++ _int_to_bijective_base_26 (width df + h) ++
      toString (((height df : Int) + 1) + (v : Int))
    ∧ df_to_a1 df .column_range (some (v : Int)) (some (h : Int)) =
      _int_to_bijective_base_26 (1 + h) ++ ":" ++
      _int_to_bijective_base_26 (width df + h)
    ∧ _int_to_bijective_base_26 1 = "A"
    ∧ _int_to_bijective_base_26 26 = "Z"
    ∧ _int_to_bijective_base_26 27 = "AA" := by
  have h1 : ((1 : Int) + (h : Int)).toNat = 1 + h := by omega
  have h2 : (((width df : Int)) + (h : Int)).toNat = width df + h := by omega
  refine ⟨?_, ?_, by decide, by decide, by decide⟩
  · simp [df_to_a1, h1, h2]
  · simp [df_to_a1, h1, h2]

/-- Witness for C10: the 5×5 sample frame of utils.py's main block maps
to "A1:E6". -/
theorem df_to_a1_spec_witness :
    df_to_a1 ⟨[⟨"Campaign", .string, List.replicate 5 .null⟩,
      ⟨"Day", .string, List.replicate 5 .null⟩,
      ⟨"Impressions", .int64, List.replicate 5 .null⟩,
      ⟨"Clicks", .int64, List.replicate 5 .null⟩,
      ⟨"Spend", .string, List.replicate 5 .null⟩]⟩ .full_range
      (some ((0 : Nat) : Int)) (some ((0 : Nat) : Int)) = "A1:E6" := by
  have h := (df_to_a1_spec ⟨[⟨"Campaign", .string, List.replicate 5 .null⟩,
    ⟨"Day", .string, List.replicate 5 .null⟩,
    ⟨"Impressions", .int64, List.replicate 5 .null⟩,
    ⟨"Clicks", .int64, List.replicate 5 .null⟩,
    ⟨"Spend", .string, List.replicate 5 .null⟩]⟩ 0 0 (by decide)).1
  rw [h]
  decide

/-! ## Placeholder-to-zero cleaner theorems -/

lemma find_map_of_name_preserving (g : Col → Col)
    (hg : ∀ c, (g c).name = c.name) (n : String) (l : List Col) :
    (l.map g).find? (fun c => c.name == n) =
      (l.find? (fun c => c.name == n)).map g := by
  induction l with
  | nil => rfl
  | cons c rest ih =>
      simp only [List.map_cons, List.find?]
      rw [hg c]
      by_cases hc : (c.name == n) = true
      · rw [hc]
        rfl
      · rw [Bool.not_eq_true] at hc
        rw [hc]
        exact ih

lemma dash_to_zero_idem (v : Value) :
    (if (if v == .str "-" then Value.str "0" else v) == .str "-" then Value.str "0"
     else (if v == .str "-" then Value.str "0" else v)) =
      (if v == .str "-" then Value.str "0" else v) := by
  by_cases hv : v = Value.str "-"
  · subst hv
    decide
  · have hb : (v == Value.str "-") = false := by
      simpa using hv
    simp [hb]

/-- Counterexample to claim C7 as stated: the claim also cites
`apslETL.clean_x_avg_frequency`, whose `replace_strict("-", "0")` has no
default and therefore raises `InvalidOperationError` on every non-null
value other than the dash.  Concretely, an X table whose textual
"Average frequency" column is `["-"]` cleans once to `["0"]`, and the
second application — fed the very zero the first produced — errors, so
applying that cited cleaner twice does not yield the same table as
applying it once. -/
theorem clean_x_avg_frequency_not_idempotent_cx :
    apslETL_clean_x_avg_frequency
      ⟨[⟨"Source", .string, [.str "X (Twitter)"]⟩,
        ⟨"Average frequency", .string, [.str "-"]⟩]⟩ =
      .ok ⟨[⟨"Source", .string, [.str "X (Twitter)"]⟩,
        ⟨"Average frequency", .string, [.str "0"]⟩]⟩
    ∧ apslETL_clean_x_avg_frequency
        ⟨[⟨"Source", .string, [.str "X (Twitter)"]⟩,
          ⟨"Average frequency", .string, [.str "0"]⟩]⟩ =
      .error .invalidOperation
    ∧ (apslETL_clean_x_avg_frequency
        ⟨[⟨"Source", .string, [.str "X (Twitter)"]⟩,
          ⟨"Average frequency", .string, [.str "-"]⟩]⟩).bind
        apslETL_clean_x_avg_frequency ≠
      apslETL_clean_x_avg_frequency
        ⟨[⟨"Source", .string, [.str "X (Twitter)"]⟩,
          ⟨"Average frequency", .string, [.str "-"]⟩]⟩ := by
  decide

/-- Claim C7 as amended: the placeholder-to-zero cleaner of the cleaning
library (`clean_x_avg_frequency`, the `when/then/otherwise` form shared
by data_clean_lib.py and `MultiSourceAdETL`) is idempotent (in the error
monad: a second application changes nothing), replaces the bare dash by
the literal zero only when the column's runtime dtype is textual, and
leaves a column of any other (already numeric) dtype completely
untouched.  The apslETL near-duplicate keeps the textual gate and the
numeric pass-through but is not idempotent: its `replace_strict` with no
default errors on any non-null value other than the dash, including the
zeros it itself produced (see the counterexample). -/
theorem clean_x_avg_frequency_spec (df : DF) :
    ((clean_x_avg_frequency df).bind clean_x_avg_frequency =
      clean_x_avg_frequency df)
    ∧ (∀ c, lookupCol df "Average frequency" = some c → c.dtype ≠ .string →
        clean_x_avg_frequency df = .ok df)
    ∧ (∀ c, lookupCol df "Average frequency" = some c → c.dtype = .string →
        clean_x_avg_frequency df = .ok ⟨df.cols.map (fun col =>
          if col.name == "Average frequency" then
            { col with values := col.values.map (fun v =>
                if v == .str "-" then .str "0" else v) }
          else col)⟩) := by
  refine ⟨?_, ?_, ?_⟩
  · cases hl : lookupCol df "Average frequency" with
    | none =>
        simp only [clean_x_avg_frequency, hl]
        rfl
    | some c =>
        by_cases hd : c.dtype = .string
        · have hstep : clean_x_avg_frequency df = .ok ⟨df.cols.map (fun col =>
            if col.name == "Average frequency" then
              { col with values := col.values.map (fun v =>
                  if v == .str "-" then .str "0" else v) }
            else col)⟩ := by
            simp only [clean_x_avg_frequency, hl]
            rw [if_pos hd]
          rw [hstep]
          show clean_x_avg_frequency _ = _
          set g : Col → Col := fun col =>
            if col.name == "Average frequency" then
              { col with values := col.values.map (fun v =>
                  if v == .str "-" then .str "0" else v) }
            else col with hgdef
          have hgname : ∀ col, (g col).name = col.name := by
            intro col
            rw [hgdef]
            by_cases h : (col.name == "Average frequency") = true
            · simp only [if_pos h]
            · simp only [if_neg h]
          have hl' : lookupCol ⟨df.cols.map g⟩ "Average frequency" =
              some (g c) := by
            show (df.cols.map g).find? _ = _
            rw [find_map_of_name_preserving g hgname _ df.cols]
            show (lookupCol df "Average frequency").map g = _
            rw [hl, Option.map_some']
          have hgd : (g c).dtype = .string := by
            rw [hgdef]
            by_cases h : (c.name == "Average frequency") = true
            · simp only [if_pos h]
              exact hd
            · simp only [if_neg h]
              exact hd
          simp only [clean_x_avg_frequency, hl']
          rw [if_pos hgd]
          congr 2
          rw [List.map_map]
          apply List.map_congr_left
          intro col _
          show g (g col) = g col
          rw [hgdef]
          by_cases h : (col.name == "Average frequency") = true
          · simp only [if_pos h, if_pos h]
            congr 1
            rw [List.map_map]
            apply List.map_congr_left
            intro v _
            exact dash_to_zero_idem v
          · simp only [if_neg h, if_neg h]
        · have hstep : clean_x_avg_frequency df = .ok df := by
            simp only [clean_x_avg_frequency, hl]
            rw [if_neg hd]
          rw [hstep]
          show clean_x_avg_frequency df = .ok df
          exact hstep
  · intro c hl hd
    simp only [clean_x_avg_frequency, hl]
    rw [if_neg hd]
  · intro c hl hd
    simp only [clean_x_avg_frequency, hl]
    rw [if_pos hd]

/-- Witness for C7: an already-numeric column passes through untouched;
a textual column has the dash (and only the dash) become "0". -/
theorem clean_x_avg_frequency_spec_witness :
    clean_x_avg_frequency ⟨[⟨"Average frequency", .int64, [.int 3]⟩]⟩ =
      .ok ⟨[⟨"Average frequency", .int64, [.int 3]⟩]⟩
    ∧ clean_x_avg_frequency
        ⟨[⟨"Average frequency", .string, [.str "-", .str "1.5", .null]⟩]⟩ =
      .ok ⟨[⟨"Average frequency", .string, [.str "0", .str "1.5", .null]⟩]⟩ := by
  constructor
  · exact (clean_x_avg_frequency_spec _).2.1
      ⟨"Average frequency", .int64, [.int 3]⟩ (by decide) (by decide)
  · have h := (clean_x_avg_frequency_spec
      ⟨[⟨"Average frequency", .string, [.str "-", .str "1.5", .null]⟩]⟩).2.2
      ⟨"Average frequency", .string, [.str "-", .str "1.5", .null]⟩
      (by decide) rfl
    exact h

/-! ## Summary-row removal theorems
The row-level reading of the per-column mask filter: filtering every
column by the one mask is exactly filtering the frame's row list. -/

lemma maskFilter_cons (b : Bool) (m : List Bool) (v : Value) (vs : List Value) :
    maskFilter (b :: m) (v :: vs) =
      if b then v :: maskFilter m vs else maskFilter m vs := by
  cases b <;> simp [maskFilter]

lemma maskFilter_length (mask : List Bool) (vs : List Value)
    (h : vs.length = mask.length) :
    (maskFilter mask vs).length = (mask.filter (fun b => b)).length := by
  induction mask generalizing vs with
  | nil => cases vs <;> simp [maskFilter] at h ⊢
  | cons b m ih =>
      cases vs with
      | nil => simp at h
      | cons v rest =>
          rw [maskFilter_cons]
          have hr := ih rest (by simpa using h)
          cases b <;> simp [List.filter_cons, hr]

lemma rowAt_mk (cols : List Col) (i : Nat) :
    rowAt ⟨cols⟩ i = cols.map (fun c => c.values.getD i Value.null) := rfl

lemma rowsOf_tail_decomp (cols : List Col) (n : Nat) (hne : cols ≠ [])
    (hlen : ∀ col ∈ cols, col.values.length = n + 1) :
    rowsOf ⟨cols⟩ = rowAt ⟨cols⟩ 0 ::
      rowsOf ⟨cols.map (fun col => { col with values := col.values.tail })⟩ := by
  obtain ⟨c0, cs, rfl⟩ := List.exists_cons_of_ne_nil hne
  have hh : height ⟨c0 :: cs⟩ = n + 1 := hlen c0 (by simp)
  have hh' : height ⟨(c0 :: cs).map
      (fun col => { col with values := col.values.tail })⟩ = n := by
    show (c0.values.tail).length = n
    have h0 := hlen c0 (by simp)
    simp [h0]
  unfold rowsOf
  rw [hh, hh', List.range_succ_eq_map, List.map_cons, List.map_map]
  congr 1
  apply List.map_congr_left
  intro i _
  rw [Function.comp_apply, rowAt_mk, rowAt_mk, List.map_map]
  apply List.map_congr_left
  intro col hcol
  have hlc := hlen col hcol
  cases hv : col.values with
  | nil => rw [hv] at hlc; simp at hlc
  | cons v rest => simp [hv]

lemma rowsOf_maskFilter (mask : List Bool) (cols : List Col)
    (hlen : ∀ col ∈ cols, col.values.length = mask.length) :
    rowsOf ⟨cols.map (fun col =>
        { col with values := maskFilter mask col.values })⟩
      = (mask.zip (rowsOf ⟨cols⟩)).filterMap
          (fun p => if p.1 then some p.2 else none) := by
  induction mask generalizing cols with
  | nil =>
      cases cols with
      | nil => rfl
      | cons c0 cs => rfl
  | cons b m ih =>
      cases cols with
      | nil => rfl
      | cons c0 cs =>
          have hlen' : ∀ col ∈ c0 :: cs, col.values.length = m.length + 1 := by
            simpa using hlen
          have hdec := rowsOf_tail_decomp (c0 :: cs) m.length (by simp) hlen'
          rw [hdec]
          have hcol : ∀ col ∈ c0 :: cs, maskFilter (b :: m) col.values =
              if b then col.values.getD 0 .null :: maskFilter m col.values.tail
              else maskFilter m col.values.tail := by
            intro col hc
            have hlc := hlen' col hc
            cases hv : col.values with
            | nil => rw [hv] at hlc; simp at hlc
            | cons v rest => cases b <;> simp [maskFilter_cons]
          cases b with
          | true =>
              have hmap : (c0 :: cs).map (fun col =>
                  { col with values := maskFilter (true :: m) col.values }) =
                  (c0 :: cs).map (fun col =>
                    { col with values := col.values.getD 0 .null ::
                        maskFilter m col.values.tail }) := by
                apply List.map_congr_left
                intro col hc
                have := hcol col hc
                simp only [this, if_true]
              rw [hmap]
              have hlen2 : ∀ col2 ∈ (c0 :: cs).map (fun col =>
                  { col with values := col.values.getD 0 .null ::
                      maskFilter m col.values.tail }),
                  col2.values.length = (m.filter (fun x => x)).length + 1 := by
                intro col2 hc2
                obtain ⟨col, hc, rfl⟩ := List.mem_map.mp hc2
                show (col.values.getD 0 .null ::
                  maskFilter m col.values.tail).length = _
                have hlc := hlen' col hc
                have hml : (maskFilter m col.values.tail).length =
                    (m.filter (fun x => x)).length := by
                  apply maskFilter_length
                  simp [hlc]
                simp [hml]
              have hdec2 := rowsOf_tail_decomp _ _ (by simp) hlen2
              rw [hdec2]
              have hhead : rowAt ⟨(c0 :: cs).map (fun col =>
                  { col with values := col.values.getD 0 .null ::
                      maskFilter m col.values.tail })⟩ 0 =
                  rowAt ⟨c0 :: cs⟩ 0 := by
                rw [rowAt_mk, rowAt_mk, List.map_map]
                rfl
              have htail : ((c0 :: cs).map (fun col =>
                  { col with values := col.values.getD 0 .null ::
                      maskFilter m col.values.tail })).map
                    (fun col => { col with values := col.values.tail }) =
                  ((c0 :: cs).map
                    (fun col => { col with values := col.values.tail })).map
                    (fun col => { col with values := maskFilter m col.values }) := by
                rw [List.map_map, List.map_map]
                rfl
              rw [hhead, htail]
              have hih := ih ((c0 :: cs).map
                (fun col => { col with values := col.values.tail }))
                (by
                  intro col2 hc2
                  obtain ⟨col, hc, rfl⟩ := List.mem_map.mp hc2
                  have hlc := hlen' col hc
                  simp [hlc])
              rw [hih]
              simp [List.filterMap_cons]
          | false =>
              have hmap : (c0 :: cs).map (fun col =>
                  { col with values := maskFilter (false :: m) col.values }) =
                  ((c0 :: cs).map
                    (fun col => { col with values := col.values.tail })).map
                    (fun col => { col with values := maskFilter m col.values }) := by
                rw [List.map_map]
                apply List.map_congr_left
                intro col hc
                have := hcol col hc
                simp only [this, if_false]
                rfl
              rw [hmap]
              have hih := ih ((c0 :: cs).map
                (fun col => { col with values := col.values.tail }))
                (by
                  intro col2 hc2
                  obtain ⟨col, hc, rfl⟩ := List.mem_map.mp hc2
                  have hlc := hlen' col hc
                  simp [hlc])
              rw [hih]
              simp [List.filterMap_cons]

lemma zip_map_filterMap_eq_filter {α : Type} (p : α → Bool) (rs : List α) :
    ((rs.map p).zip rs).filterMap (fun q => if q.1 then some q.2 else none) =
      rs.filter p := by
  induction rs with
  | nil => rfl
  | cons r rest ih =>
      simp only [List.map_cons, List.zip_cons_cons, List.filterMap_cons]
      cases hp : p r with
      | true => simp [List.filter_cons, hp, ih]
      | false => simp [List.filter_cons, hp, ih]

lemma map_eq_range_map {α β : Type} (f : α → β) (d : α) (l : List α) :
    l.map f = (List.range l.length).map (fun i => f (l.getD i d)) := by
  induction l with
  | nil => rfl
  | cons a rest ih =>
      rw [List.map_cons, List.length_cons, List.range_succ_eq_map,
        List.map_cons, List.map_map, ih]
      rfl

/-- Claim C8: the summary-row cleaner drops exactly the rows whose value
in the table's second column (position-based) starts with the literal
"Total", and keeps all the other rows unchanged and in their original
order — the output's row list is the input's row list filtered on the
second cell. -/
theorem remove_total_rows_spec (df : DF) (c : Col)
    (hwf : wf df) (h1 : df.cols[1]? = some c) (hs : c.dtype = .string) :
    remove_tiktok_total_row df =
      .ok ⟨df.cols.map (fun col =>
        { col with values := maskFilter (c.values.map keepRow) col.values })⟩
    ∧ rowsOf ⟨df.cols.map (fun col =>
        { col with values := maskFilter (c.values.map keepRow) col.values })⟩ =
      (rowsOf df).filter (fun r => keepRow (r.getD 1 .null)) := by
  have hmem : c ∈ df.cols := List.getElem?_mem h1
  have hclen : c.values.length = height df := hwf c hmem
  constructor
  · simp only [remove_tiktok_total_row, h1]
    rw [if_pos hs]
  · have hmask : (c.values.map keepRow).length = height df := by
      simp [hclen]
    rw [rowsOf_maskFilter (c.values.map keepRow) df.cols
      (by
        intro col hc
        rw [hwf col hc, hmask])]
    have hsecond : ∀ i, (rowAt df i).getD 1 Value.null = c.values.getD i .null := by
      intro i
      unfold rowAt
      rw [List.getD_eq_getElem?_getD, List.getElem?_map, h1]
      rfl
    have hmeq : c.values.map keepRow =
        (rowsOf df).map (fun r => keepRow (r.getD 1 Value.null)) := by
      unfold rowsOf
      rw [List.map_map]
      rw [map_eq_range_map keepRow Value.null c.values, hclen]
      apply List.map_congr_left
      intro i _
      show keepRow _ = keepRow ((rowAt df i).getD 1 Value.null)
      rw [hsecond i]
    rw [hmeq, zip_map_filterMap_eq_filter]

/-- Witness for C8: a three-column TikTok-shaped frame loses exactly its
"Total"-prefixed row (detected in the second column). -/
theorem remove_total_rows_spec_witness :
    remove_tiktok_total_row ⟨[⟨"By Day", .string, [.str "Total", .str "2025-08-01"]⟩,
      ⟨"Campaign name", .string, [.str "Total of all", .str "camp"]⟩,
      ⟨"Cost", .int64, [.int 9, .int 5]⟩]⟩ =
      .ok ⟨[⟨"By Day", .string, [.str "2025-08-01"]⟩,
        ⟨"Campaign name", .string, [.str "camp"]⟩,
        ⟨"Cost", .int64, [.int 5]⟩]⟩
    ∧ rowsOf ⟨[⟨"By Day", .string, [.str "2025-08-01"]⟩,
        ⟨"Campaign name", .string, [.str "camp"]⟩,
        ⟨"Cost", .int64, [.int 5]⟩]⟩ =
      [[.str "2025-08-01", .str "camp", .int 5]] := by
  have h := remove_total_rows_spec
    ⟨[⟨"By Day", .string, [.str "Total", .str "2025-08-01"]⟩,
      ⟨"Campaign name", .string, [.str "Total of all", .str "camp"]⟩,
      ⟨"Cost", .int64, [.int 9, .int 5]⟩]⟩
    ⟨"Campaign name", .string, [.str "Total of all", .str "camp"]⟩
    (by decide) (by decide) rfl
  refine ⟨?_, by decide⟩
  have h2 := h.1
  exact h2.trans (by decide)

/-! ## Filename helper theorems -/

lemma dateLe_refl (a : Nat × Nat × Nat) : dateLe a a = true := by
  simp [dateLe]

lemma dateLe_trans {a b c : Nat × Nat × Nat} (h1 : dateLe a b = true)
    (h2 : dateLe b c = true) : dateLe a c = true := by
  obtain ⟨a1, a2, a3⟩ := a
  obtain ⟨b1, b2, b3⟩ := b
  obtain ⟨c1, c2, c3⟩ := c
  simp [dateLe] at h1 h2 ⊢
  omega

lemma dateLe_total (a b : Nat × Nat × Nat) :
    dateLe a b = true ∨ dateLe b a = true := by
  obtain ⟨a1, a2, a3⟩ := a
  obtain ⟨b1, b2, b3⟩ := b
  simp [dateLe]
  omega

lemma dateLe_antisymm {a b : Nat × Nat × Nat} (h1 : dateLe a b = true)
    (h2 : dateLe b a = true) : a = b := by
  obtain ⟨a1, a2, a3⟩ := a
  obtain ⟨b1, b2, b3⟩ := b
  simp [dateLe] at h1 h2
  have h3 : a1 = b1 ∧ a2 = b2 ∧ a3 = b3 := by omega
  simp [h3.1, h3.2.1, h3.2.2]

lemma foldl_min_spec (rest : List (Nat × Nat × Nat)) (d : Nat × Nat × Nat) :
    (rest.foldl (fun acc x => if dateLe x acc then x else acc) d) ∈ d :: rest
    ∧ ∀ x ∈ d :: rest,
        dateLe (rest.foldl (fun acc x => if dateLe x acc then x else acc) d) x
          = true := by
  induction rest generalizing d with
  | nil =>
      refine ⟨by simp, ?_⟩
      intro x hx
      rw [List.mem_singleton.mp hx]
      exact dateLe_refl _
  | cons y rest ih =>
      rw [List.foldl_cons]
      by_cases hyd : dateLe y d = true
      · rw [if_pos hyd]
        obtain ⟨ihmem, ihle⟩ := ih y
        refine ⟨?_, ?_⟩
        · rcases List.mem_cons.mp ihmem with h | h
          · rw [h]
            exact List.mem_cons_of_mem _ (List.mem_cons_self _ _)
          · exact List.mem_cons_of_mem _ (List.mem_cons_of_mem _ h)
        · intro x hx
          rcases List.mem_cons.mp hx with h | h
          · rw [h]
            exact dateLe_trans (ihle y (List.mem_cons_self _ _)) hyd
          · exact ihle x h
      · rw [if_neg hyd]
        obtain ⟨ihmem, ihle⟩ := ih d
        have hdy : dateLe d y = true := (dateLe_total y d).resolve_left hyd
        refine ⟨?_, ?_⟩
        · rcases List.mem_cons.mp ihmem with h | h
          · rw [h]
            exact List.mem_cons_self _ _
          · exact List.mem_cons_of_mem _ (List.mem_cons_of_mem _ h)
        · intro x hx
          rcases List.mem_cons.mp hx with h | h
          · rw [h]
            exact ihle d (List.mem_cons_self _ _)
          · rcases List.mem_cons.mp h with h2 | h2
            · rw [h2]
              exact dateLe_trans (ihle d (List.mem_cons_self _ _)) hdy
            · exact ihle x (List.mem_cons_of_mem _ h2)

lemma foldl_max_spec (rest : List (Nat × Nat × Nat)) (d : Nat × Nat × Nat) :
    (rest.foldl (fun acc x => if dateLe acc x then x else acc) d) ∈ d :: rest
    ∧ ∀ x ∈ d :: rest,
        dateLe x (rest.foldl (fun acc x => if dateLe acc x then x else acc) d)
          = true := by
  induction rest generalizing d with
  | nil =>
      refine ⟨by simp, ?_⟩
      intro x hx
      rw [List.mem_singleton.mp hx]
      exact dateLe_refl _
  | cons y rest ih =>
      rw [List.foldl_cons]
      by_cases hdy : dateLe d y = true
      · rw [if_pos hdy]
        obtain ⟨ihmem, ihle⟩ := ih y
        refine ⟨?_, ?_⟩
        · rcases List.mem_cons.mp ihmem with h | h
          · rw [h]
            exact List.mem_cons_of_mem _ (List.mem_cons_self _ _)
          · exact List.mem_cons_of_mem _ (List.mem_cons_of_mem _ h)
        · intro x hx
          rcases List.mem_cons.mp hx with h | h
          · rw [h]
            exact dateLe_trans hdy (ihle y (List.mem_cons_self _ _))
          · exact ihle x h
      · rw [if_neg hdy]
        obtain ⟨ihmem, ihle⟩ := ih d
        have hyd : dateLe y d = true := (dateLe_total d y).resolve_left hdy
        refine ⟨?_, ?_⟩
        · rcases List.mem_cons.mp ihmem with h | h
          · rw [h]
            exact List.mem_cons_self _ _
          · exact List.mem_cons_of_mem _ (List.mem_cons_of_mem _ h)
        · intro x hx
          rcases List.mem_cons.mp hx with h | h
          · rw [h]
            exact ihle d (List.mem_cons_self _ _)
          · rcases List.mem_cons.mp h with h2 | h2
            · rw [h2]
              exact dateLe_trans hyd (ihle d (List.mem_cons_self _ _))
            · exact ihle x (List.mem_cons_of_mem _ h2)

lemma minDate_eq_of_min (ds : List (Nat × Nat × Nat)) (mn : Nat × Nat × Nat)
    (hmem : mn ∈ ds) (hmin : ∀ x ∈ ds, dateLe mn x = true) :
    minDate ds = some mn := by
  cases ds with
  | nil => cases hmem
  | cons d rest =>
      show some (rest.foldl (fun acc x => if dateLe x acc then x else acc) d) =
        some mn
      obtain ⟨hm, hle⟩ := foldl_min_spec rest d
      exact congrArg some (dateLe_antisymm (hle mn hmem) (hmin _ hm))

lemma maxDate_eq_of_max (ds : List (Nat × Nat × Nat)) (mx : Nat × Nat × Nat)
    (hmem : mx ∈ ds) (hmax : ∀ x ∈ ds, dateLe x mx = true) :
    maxDate ds = some mx := by
  cases ds with
  | nil => cases hmem
  | cons d rest =>
      show some (rest.foldl (fun acc x => if dateLe acc x then x else acc) d) =
        some mx
      obtain ⟨hm, hle⟩ := foldl_max_spec rest d
      exact congrArg some (dateLe_antisymm (hmax _ hm) (hle mx hmem))

/-- Counterexample to claim C9 as stated: the claim also cites
`MultiSourceAdETL.construct_file_name`, whose f-string separator is the
mojibake sequence "â€“" rather than the en dash, so on a concrete
two-date frame that cited implementation returns
`"kcon_2025-08-01â€“2025-08-03.csv"` and not the claimed
`"kcon_2025-08-01–2025-08-03.csv"`. -/
theorem construct_file_name_mojibake_cx :
    construct_file_name "kcon"
      ⟨[⟨"Day", .date, [.date 2025 8 1, .date 2025 8 3]⟩]⟩ =
      .ok "kcon_2025-08-01â€“2025-08-03.csv"
    ∧ construct_file_name "kcon"
        ⟨[⟨"Day", .date, [.date 2025 8 1, .date 2025 8 3]⟩]⟩ ≠
      .ok "kcon_2025-08-01–2025-08-03.csv" := by
  decide

/-- Claim C9 as amended: `make_date_filename` (utils.py) yields exactly
`"{identifier}_{min date}–{max date}.csv"` (en dash), min and max taken
over the dates of the frame's first date-typed column, and raises
`ValueError` when the frame has no date-typed column.  The
`construct_file_name` near-duplicate derives the same min/max filename
but with the mojibake separator "â€“" in place of the en dash, and on a
frame with no date column it fails only incidentally, with the
`TypeError` raised by `pl.col(None)`. -/
theorem make_date_filename_spec (pre : String) (df : DF) :
    ((df.cols.filter (fun c => c.dtype = .date)).map Col.name = [] →
      make_date_filename pre df = .error .valueError)
    ∧ (∀ nm rest col mn mx,
        (df.cols.filter (fun c => c.dtype = .date)).map Col.name = nm :: rest →
        lookupCol df nm = some col →
        mn ∈ datesOf col.values →
        (∀ x ∈ datesOf col.values, dateLe mn x = true) →
        mx ∈ datesOf col.values →
        (∀ x ∈ datesOf col.values, dateLe x mx = true) →
        make_date_filename pre df =
          .ok (pre ++ "_" ++ isoString mn.1 mn.2.1 mn.2.2 ++ "–" ++
               isoString mx.1 mx.2.1 mx.2.2 ++ ".csv"))
    ∧ ((df.cols.filter (fun c => c.dtype = .date)).map Col.name = [] →
      construct_file_name pre df = .error .typeError)
    ∧ (∀ nm rest col mn mx,
        (df.cols.filter (fun c => c.dtype = .date)).map Col.name = nm :: rest →
        lookupCol df nm = some col →
        mn ∈ datesOf col.values →
        (∀ x ∈ datesOf col.values, dateLe mn x = true) →
        mx ∈ datesOf col.values →
        (∀ x ∈ datesOf col.values, dateLe x mx = true) →
        construct_file_name pre df =
          .ok (pre ++ "_" ++ isoString mn.1 mn.2.1 mn.2.2 ++ "â€“" ++
               isoString mx.1 mx.2.1 mx.2.2 ++ ".csv")) := by
  refine ⟨?_, ?_, ?_, ?_⟩
  · intro h
    unfold make_date_filename
    rw [h]
  · intro nm rest col mn mx hd hlk hmn hmnle hmx hmxle
    unfold make_date_filename
    rw [hd]
    show (match lookupCol df nm with
      | none => Except.error ETLError.columnNotFound
      | some col => Except.ok (pre ++ "_" ++
          optDateStr (minDate (datesOf col.values)) ++ "–" ++
          optDateStr (maxDate (datesOf col.values)) ++ ".csv")) = _
    rw [hlk]
    show Except.ok (pre ++ "_" ++ optDateStr (minDate (datesOf col.values)) ++
      "–" ++ optDateStr (maxDate (datesOf col.values)) ++ ".csv") = _
    rw [minDate_eq_of_min _ mn hmn hmnle, maxDate_eq_of_max _ mx hmx hmxle]
    rfl
  · intro h
    unfold construct_file_name
    rw [h]
  · intro nm rest col mn mx hd hlk hmn hmnle hmx hmxle
    unfold construct_file_name
    rw [hd]
    show (match lookupCol df nm with
      | none => Except.error ETLError.columnNotFound
      | some col => Except.ok (pre ++ "_" ++
          optDateStr (minDate (datesOf col.values)) ++ "â€“" ++
          optDateStr (maxDate (datesOf col.values)) ++ ".csv")) = _
    rw [hlk]
    show Except.ok (pre ++ "_" ++ optDateStr (minDate (datesOf col.values)) ++
      "â€“" ++ optDateStr (maxDate (datesOf col.values)) ++ ".csv") = _
    rw [minDate_eq_of_min _ mn hmn hmnle, maxDate_eq_of_max _ mx hmx hmxle]
    rfl

/-- Witness for C9: a frame whose first (only) date column spans
2025-08-01 … 2025-08-03, with a null skipped by min/max; the utils
helper produces the en-dash filename, the `MultiSourceAdETL`
near-duplicate the mojibake one. -/
theorem make_date_filename_spec_witness :
    make_date_filename "kcon" ⟨[⟨"Source", .string, [.str "Meta"]⟩,
      ⟨"Day", .date, [.date 2025 8 3, .date 2025 8 1, .null]⟩]⟩ =
      .ok "kcon_2025-08-01–2025-08-03.csv"
    ∧ construct_file_name "kcon" ⟨[⟨"Source", .string, [.str "Meta"]⟩,
      ⟨"Day", .date, [.date 2025 8 3, .date 2025 8 1, .null]⟩]⟩ =
      .ok "kcon_2025-08-01â€“2025-08-03.csv" := by
  constructor
  · have h := (make_date_filename_spec "kcon"
      ⟨[⟨"Source", .string, [.str "Meta"]⟩,
        ⟨"Day", .date, [.date 2025 8 3, .date 2025 8 1, .null]⟩]⟩).2.1
      "Day" [] ⟨"Day", .date, [.date 2025 8 3, .date 2025 8 1, .null]⟩
      (2025, 8, 1) (2025, 8, 3)
      (by decide) (by decide) (by decide) (by decide) (by decide) (by decide)
    exact h.trans (by decide)
  · have h := (make_date_filename_spec "kcon"
      ⟨[⟨"Source", .string, [.str "Meta"]⟩,
        ⟨"Day", .date, [.date 2025 8 3, .date 2025 8 1, .null]⟩]⟩).2.2.2
      "Day" [] ⟨"Day", .date, [.date 2025 8 3, .date 2025 8 1, .null]⟩
      (2025, 8, 1) (2025, 8, 3)
      (by decide) (by decide) (by decide) (by decide) (by decide) (by decide)
    exact h.trans (by decide)

/-! ## Schema-coercion theorems -/

lemma except_bind_ok {ε α β : Type} {x : Except ε α} {f : α → Except ε β}
    {b : β} (h : (x >>= f) = .ok b) : ∃ a, x = .ok a ∧ f a = .ok b := by
  cases x with
  | error e => cases h
  | ok a => exact ⟨a, rfl, h⟩

lemma selectCols_names (d : DF) (names : List String) (sel : DF)
    (h : selectCols d names = .ok sel) : colNames sel = names := by
  unfold selectCols at h
  cases hm : names.mapM (lookupCol d) with
  | none => rw [hm] at h; cases h
  | some cs =>
      rw [hm] at h
      cases h
      show cs.map Col.name = names
      induction names generalizing cs with
      | nil =>
          rw [List.mapM_nil] at hm
          cases hm
          rfl
      | cons n ns ih =>
          rw [List.mapM_cons] at hm
          cases hl : lookupCol d n with
          | none => rw [hl] at hm; cases hm
          | some c =>
              rw [hl] at hm
              cases hr : ns.mapM (lookupCol d) with
              | none => rw [hr] at hm; cases hm
              | some cs' =>
                  rw [hr] at hm
                  cases hm
                  have hn : c.name = n := by
                    have hp := List.find?_some hl
                    exact eq_of_beq hp
                  rw [List.map_cons, hn, ih cs' hr]

lemma mapM_congr_mem {m : Type → Type} [Monad m] [LawfulMonad m] {α β : Type}
    {f g : α → m β} : ∀ (l : List α), (∀ a ∈ l, f a = g a) →
    l.mapM f = l.mapM g := by
  intro l
  induction l with
  | nil => intro _; rfl
  | cons a rest ih =>
      intro h
      rw [List.mapM_cons, List.mapM_cons, h a (List.mem_cons_self _ _),
        ih (fun x hx => h x (List.mem_cons_of_mem _ hx))]

lemma castCol_ok (c : Col) (dt : DType) (c' : Col)
    (h : castCol c dt = .ok c') : c'.name = c.name ∧ c'.dtype = dt := by
  unfold castCol at h
  cases hm : c.values.mapM (fun v => castValue v dt) with
  | none => rw [hm] at h; cases h
  | some vs =>
      rw [hm] at h
      cases h
      exact ⟨rfl, rfl⟩

lemma castDF_schema (schema : List (String × DType)) (cols : List Col)
    (outCols : List Col)
    (hnames : cols.map Col.name = schema.map Prod.fst)
    (hnd : (schema.map Prod.fst).Nodup)
    (h : cols.mapM (fun c =>
        match schema.find? (fun p => p.1 == c.name) with
        | some p => castCol c p.2
        | none => .ok c) = .ok outCols) :
    outCols.map (fun c => (c.name, c.dtype)) = schema := by
  induction schema generalizing cols outCols with
  | nil =>
      cases cols with
      | nil =>
          rw [List.mapM_nil] at h
          cases h
          rfl
      | cons c cs => cases hnames
  | cons p rest ih =>
      cases cols with
      | nil => cases hnames
      | cons c cs =>
          simp only [List.map_cons, List.cons.injEq] at hnames
          obtain ⟨hcn, hrest⟩ := hnames
          simp only [List.map_cons, List.nodup_cons] at hnd
          obtain ⟨hp1, hndrest⟩ := hnd
          rw [List.mapM_cons] at h
          have hfp : (p :: rest).find? (fun q => q.1 == c.name) = some p := by
            apply List.find?_cons_of_pos
            rw [hcn]
            simp
          obtain ⟨c', hhead, h2⟩ := except_bind_ok h
          obtain ⟨outRest, hrem, hpure⟩ := except_bind_ok h2
          have houtCols : outCols = c' :: outRest := by
            cases hpure
            rfl
          have hcast : castCol c p.2 = .ok c' := by
            rw [hfp] at hhead
            exact hhead
          obtain ⟨hname, hdt⟩ := castCol_ok c p.2 c' hcast
          have hrem' : cs.mapM (fun c =>
              match rest.find? (fun q => q.1 == c.name) with
              | some q => castCol c q.2
              | none => .ok c) = .ok outRest := by
            rw [← hrem]
            apply mapM_congr_mem
            intro x hx
            have hx1 : x.name ∈ rest.map Prod.fst := by
              rw [← hrest]
              exact List.mem_map_of_mem Col.name hx
            have hne : ¬ (p.1 == x.name) = true := by
              intro hb
              exact hp1 (eq_of_beq hb ▸ hx1)
            have hfr : List.find? (fun q => q.1 == x.name) (p :: rest) =
                List.find? (fun q => q.1 == x.name) rest :=
              List.find?_cons_of_neg _ hne
            rw [hfr]
          rw [houtCols, List.map_cons, hname, hcn, hdt,
            ih cs outRest hrest hndrest hrem', Prod.mk.eta]

/-- Claim C3: whenever the coercion step (fill missing with nulls, select
in canonical order, cast to declared dtypes) succeeds, the output frame's
schema — column names, left-to-right order, and per-column runtime
dtype — is exactly the canonical schema; columns outside the canonical
schema are gone.  The canonical schema is a Python dict, so its keys are
distinct. -/
theorem coerce_schema_invariant (df : DF) (schema : List (String × DType))
    (out : DF) (hnd : (schema.map Prod.fst).Nodup)
    (h : coerceToSchema df schema = .ok out) :
    schemaOf out = schema := by
  unfold coerceToSchema at h
  obtain ⟨sel, hsel, hcast⟩ := except_bind_ok h
  have hnames : colNames sel = schema.map Prod.fst :=
    selectCols_names _ _ _ hsel
  unfold castDF at hcast
  obtain ⟨outCols, hmap, hpure⟩ := except_bind_ok hcast
  have hout : out = ⟨outCols⟩ := by
    cases hpure
    rfl
  rw [hout]
  exact castDF_schema schema sel.cols outCols hnames hnd hmap

/-- Witness for C3: a frame with a spurious "Extra" column and a missing
"Source" column coerces onto the canonical schema
`[Source: string, Day: date]` exactly. -/
theorem coerce_schema_invariant_witness :
    coerceToSchema ⟨[⟨"Day", .string, [.str "2025-08-01"]⟩,
      ⟨"Extra", .string, [.str "x"]⟩]⟩
      [("Source", .string), ("Day", .date)] =
      .ok ⟨[⟨"Source", .string, [.null]⟩, ⟨"Day", .date, [.date 2025 8 1]⟩]⟩
    ∧ schemaOf ⟨[⟨"Source", .string, [.null]⟩,
        ⟨"Day", .date, [.date 2025 8 1]⟩]⟩ =
      [("Source", .string), ("Day", .date)] :=
  ⟨by decide,
   coerce_schema_invariant ⟨[⟨"Day", .string, [.str "2025-08-01"]⟩,
      ⟨"Extra", .string, [.str "x"]⟩]⟩ [("Source", .string), ("Day", .date)]
      ⟨[⟨"Source", .string, [.null]⟩, ⟨"Day", .date, [.date 2025 8 1]⟩]⟩
      (by decide) (by decide)⟩

/-! ## Merge round-trip theorems -/

lemma height_zip_append (cols1 cols2 : List Col)
    (hz : cols1.length = cols2.length) :
    height ⟨(cols1.zip cols2).map (fun p =>
      ⟨p.1.name, p.1.dtype, p.1.values ++ p.2.values⟩)⟩ =
      height ⟨cols1⟩ + height ⟨cols2⟩ := by
  cases cols1 with
  | nil =>
      cases cols2 with
      | nil => rfl
      | cons b l2 => simp at hz
  | cons a l1 =>
      cases cols2 with
      | nil => simp at hz
      | cons b l2 =>
          show (a.values ++ b.values).length =
            a.values.length + b.values.length
          exact List.length_append _ _

lemma vstack_spec (df1 df2 : DF) (hwf1 : wf df1) (hwf2 : wf df2)
    (hs : schemaOf df2 = schemaOf df1) :
    ∃ m, vstack df1 df2 = .ok m ∧ wf m ∧ schemaOf m = schemaOf df1 ∧
      height m = height df1 + height df2 ∧
      rowsOf m = rowsOf df1 ++ rowsOf df2 := by
  obtain ⟨cols1⟩ := df1
  obtain ⟨cols2⟩ := df2
  have hz : cols1.length = cols2.length := by
    have h1 : (schemaOf ⟨cols1⟩).length = cols1.length := List.length_map _ _
    have h2 : (schemaOf ⟨cols2⟩).length = cols2.length := List.length_map _ _
    rw [← h1, ← h2, hs]
  have hh := height_zip_append cols1 cols2 hz
  refine ⟨⟨(cols1.zip cols2).map (fun p =>
    ⟨p.1.name, p.1.dtype, p.1.values ++ p.2.values⟩)⟩, ?_, ?_, ?_, hh, ?_⟩
  · unfold vstack
    rw [if_pos hs.symm]
  · intro cm hcm
    obtain ⟨p, hp, rfl⟩ := List.mem_map.mp hcm
    obtain ⟨a, b⟩ := p
    obtain ⟨ha, hb⟩ := List.of_mem_zip hp
    show (a.values ++ b.values).length = _
    rw [List.length_append, hwf1 a ha, hwf2 b hb]
    exact hh.symm
  · show ((cols1.zip cols2).map (fun p =>
      (⟨p.1.name, p.1.dtype, p.1.values ++ p.2.values⟩ : Col))).map
        (fun c => (c.name, c.dtype)) = schemaOf ⟨cols1⟩
    rw [List.map_map]
    have hfst : (cols1.zip cols2).map Prod.fst = cols1 :=
      List.map_fst_zip _ _ (le_of_eq hz)
    calc (cols1.zip cols2).map ((fun c => (c.name, c.dtype)) ∘ Prod.fst)
        = ((cols1.zip cols2).map Prod.fst).map
            (fun c => (c.name, c.dtype)) := by rw [List.map_map]
      _ = cols1.map (fun c => (c.name, c.dtype)) := by rw [hfst]
  · unfold rowsOf
    rw [hh, List.range_add, List.map_append, List.map_map]
    congr 1
    · apply List.map_congr_left
      intro i hi
      have hilt : i < height ⟨cols1⟩ := List.mem_range.mp hi
      rw [rowAt_mk, rowAt_mk, List.map_map]
      have step1 : ∀ p ∈ cols1.zip cols2,
          ((fun c => c.values.getD i Value.null) ∘ (fun p =>
            (⟨p.1.name, p.1.dtype, p.1.values ++ p.2.values⟩ : Col))) p =
          ((fun c => c.values.getD i Value.null) ∘ Prod.fst) p := by
        intro p hp
        obtain ⟨a, b⟩ := p
        obtain ⟨ha, _⟩ := List.of_mem_zip hp
        show (a.values ++ b.values).getD i Value.null =
          a.values.getD i Value.null
        apply List.getD_append
        rw [hwf1 a ha]
        exact hilt
      rw [List.map_congr_left step1, ← List.map_map]
      rw [List.map_fst_zip _ _ (le_of_eq hz)]
    · apply List.map_congr_left
      intro i _
      rw [Function.comp_apply, rowAt_mk, rowAt_mk, List.map_map]
      have step2 : ∀ p ∈ cols1.zip cols2,
          ((fun c => c.values.getD (height ⟨cols1⟩ + i) Value.null) ∘ (fun p =>
            (⟨p.1.name, p.1.dtype, p.1.values ++ p.2.values⟩ : Col))) p =
          ((fun c => c.values.getD i Value.null) ∘ Prod.snd) p := by
        intro p hp
        obtain ⟨a, b⟩ := p
        obtain ⟨ha, _⟩ := List.of_mem_zip hp
        show (a.values ++ b.values).getD (height ⟨cols1⟩ + i) Value.null =
          b.values.getD i Value.null
        rw [List.getD_append_right _ _ _ _ (by rw [hwf1 a ha]; omega),
          hwf1 a ha]
        congr 1
        omega
      rw [List.map_congr_left step2, ← List.map_map]
      rw [List.map_snd_zip _ _ (le_of_eq hz.symm)]

/-- Claim C4: merging a non-empty sequence of schema-identical
NormalizedTables succeeds and yields one table whose row count is the sum
of the inputs' row counts and whose rows are the concatenation of the
inputs' rows in input order (file-then-row); for a single table the merge
is the identity. -/
theorem merge_round_trip (first : DF) (rest : List DF)
    (hwf1 : wf first) (hwfr : ∀ x ∈ rest, wf x)
    (hsch : ∀ x ∈ rest, schemaOf x = schemaOf first) :
    ∃ out, pl_concat (first :: rest) = .ok out ∧
      height out = ((first :: rest).map height).sum ∧
      rowsOf out = ((first :: rest).map rowsOf).flatten ∧
      (rest = [] → out = first) := by
  induction rest generalizing first with
  | nil => exact ⟨first, rfl, by simp, by simp, fun _ => rfl⟩
  | cons r rest' ih =>
      have hsr : schemaOf r = schemaOf first := hsch r (List.mem_cons_self _ _)
      obtain ⟨m, hvs, hwfm, hschm, hhm, hrowm⟩ :=
        vstack_spec first r hwf1 (hwfr r (List.mem_cons_self _ _)) hsr
      obtain ⟨out, hconcat, hh, hrows, _⟩ := ih m hwfm
        (fun x hx => hwfr x (List.mem_cons_of_mem _ hx))
        (fun x hx => (hsch x (List.mem_cons_of_mem _ hx)).trans hschm.symm)
      refine ⟨out, ?_, ?_, ?_, ?_⟩
      · show (r :: rest').foldlM vstack first = .ok out
        rw [List.foldlM_cons, hvs]
        show rest'.foldlM vstack m = .ok out
        exact hconcat
      · rw [hh]
        simp only [List.map_cons, List.sum_cons]
        rw [hhm]
        omega
      · rw [hrows]
        simp only [List.map_cons, List.flatten_cons]
        rw [hrowm, List.append_assoc]
      · intro h
        exact absurd h (List.cons_ne_nil _ _)

/-- Witness for C4: two one-column frames of heights 2 and 1 merge to a
frame of height 3 whose rows are the inputs' rows in order. -/
theorem merge_round_trip_witness :
    ∃ out, pl_concat [⟨[⟨"a", .string, [.str "x", .str "y"]⟩]⟩,
        ⟨[⟨"a", .string, [.str "z"]⟩]⟩] = .ok out ∧
      height out = (([⟨[⟨"a", .string, [.str "x", .str "y"]⟩]⟩,
        ⟨[⟨"a", .string, [.str "z"]⟩]⟩] : List DF).map height).sum ∧
      rowsOf out = (([⟨[⟨"a", .string, [.str "x", .str "y"]⟩]⟩,
        ⟨[⟨"a", .string, [.str "z"]⟩]⟩] : List DF).map rowsOf).flatten ∧
      ([⟨[⟨"a", .string, [.str "z"]⟩]⟩] = ([] : List DF) →
        out = ⟨[⟨"a", .string, [.str "x", .str "y"]⟩]⟩) :=
  merge_round_trip ⟨[⟨"a", .string, [.str "x", .str "y"]⟩]⟩
    [⟨[⟨"a", .string, [.str "z"]⟩]⟩] (by decide) (by decide) (by decide)

end PolarsAdEtl
